import Mathlib

/-!
# Verification of the rag-cli retrieval and reranking pipeline

Shallow embedding of the core retrieval pipeline of `busybytelab/rag-cli`:

* `pkg/embedding/embedding.go` — chunking (`ChunkText`, `splitIntoSentences`,
  `getOverlapText`) and embedding orchestration (`GenerateEmbeddings`);
* `pkg/database/search_engine.go` — the hybrid search engine
  (`SearchDocumentsWithOptions`, `searchVectorOnly`, `searchTextOnly`,
  `searchHybrid`, `searchSemantic`, `applyReranking`, `RankSearchResults`).

Go `float64` score arithmetic is embedded as exact rational arithmetic (`ℚ`).
Go strings handled by the chunker are embedded as `List Char`; the chunker's
source mixes byte indexing and rune iteration, which coincide on ASCII text,
and the embedding models that common case (one `Char` per position).
External collaborators (Postgres, the reranker model) are embedded as explicit
oracle parameters; the SQL queries built by the search engine are embedded as
list operations whose semantics follow the query text (filter on the WHERE
clause, sort on the ORDER BY clause, truncate on the LIMIT clause).
-/

/-- Embeds `database.Document` (`pkg/database/database.go`).  Timestamps are
omitted (never read by the search pipeline); `ChunkIndex` (a Go `int` assigned
from a non-negative counter) is a `Nat`. -/
structure Document where
  id : String
  collectionId : String
  filePath : String
  fileName : String
  content : String
  chunkIndex : Nat
  embedding : List ℚ
  metadata : String
  deriving Repr, DecidableEq

/-- Embeds `database.SearchResult` (`pkg/database/database.go`).  `Rank` is a
Go `int`, embedded as `Int`; Go's zero value for the field is `0`. -/
structure SearchResult where
  document : Document
  vectorScore : ℚ
  textScore : ℚ
  combinedScore : ℚ
  rank : Int
  deriving Repr, DecidableEq

/-- Embeds `database.SearchType` (a Go `string` type). -/
def SearchTypeVector : String := "vector"

/-- Embeds `database.SearchTypeText`. -/
def SearchTypeText : String := "text"

/-- Embeds `database.SearchTypeHybrid`. -/
def SearchTypeHybrid : String := "hybrid"

/-- Embeds `database.SearchTypeSemantic`. -/
def SearchTypeSemantic : String := "semantic"

/-- Embeds `database.SearchOptions`.  The reranking fields
(`EnableReranking`, `RerankInstruction`, `OriginalWeight`, `RerankWeight`,
`RerankLimit`) are the ones read by `search_engine.go`; their struct
declaration is not among the provided files but every field is fully
determined by its uses in `SearchDocumentsWithOptions` and `applyReranking`. -/
structure SearchOptions where
  searchType : String
  vectorWeight : ℚ
  textWeight : ℚ
  minScore : ℚ
  maxDistance : ℚ
  fileFilter : String
  contentFilter : String
  useFuzzyMatch : Bool
  fuzzyDistance : Int
  enableReranking : Bool
  rerankInstruction : String
  originalWeight : ℚ
  rerankWeight : ℚ
  rerankLimit : Int
  deriving Repr

/-- Embeds `client.RerankResult` (fields `Document`, `Score`, `Rank`, as used
by `OpenAIClient.Rerank` and `applyReranking`). -/
structure RerankResult where
  document : String
  score : ℚ
  rank : Int
  deriving Repr, DecidableEq

/-- Embeds `context.Context` as far as the pipeline observes it: the engine
only ever constructs `context.Background()` or receives a caller context that
may carry a cancellation.  `withCancel true` stands for a context whose
cancellation has fired. -/
inductive GoContext where
  | background : GoContext
  | withCancel : Bool → GoContext
  deriving Repr, DecidableEq

/-- Embeds the error values produced by `search_engine.go` (each constructor
is one `fmt.Errorf` site):
* `textQueryRequired` — "text query is required for text search";
* `embeddingOrTextQueryRequired` — "either embedding or text query must be provided";
* `rerankerNotInitialized` — "reranker not initialized";
* `rerankingFailed` — "reranking failed: %w" (wrapping the reranker transport error);
* `failedToApplyReranking` — "failed to apply reranking: %w". -/
inductive SearchError where
  | textQueryRequired : SearchError
  | embeddingOrTextQueryRequired : SearchError
  | rerankerNotInitialized : SearchError
  | rerankingFailed : String → SearchError
  | failedToApplyReranking : SearchError → SearchError
  deriving Repr, DecidableEq

/-- The external reranker capability `client.Reranker.Rerank(ctx, query,
documents, instruction)`, as an oracle.  A transport failure is `.error`. -/
def Reranker : Type :=
  GoContext → String → List String → String → Except String (List RerankResult)

/-! ## Reranking fusion (`applyReranking`, `search_engine.go:447-498`) -/

/-- Embeds the `rerankMap` built in `applyReranking`: a Go map filled by
iterating over `rerankResults`, so for duplicate `Document` keys the later
entry overwrites the earlier one (with Go ≥ 1.22 per-iteration loop
variables, each entry is that iteration's element). -/
def rerankMapLookup (rrs : List RerankResult) (content : String) :
    Option RerankResult :=
  match rrs with
  | [] => none
  | rr :: rest =>
    match rerankMapLookup rest content with
    | some r => some r
    | none => if rr.document = content then some rr else none

/-- Embeds the per-result fusion step of `applyReranking`: a result whose
document content is matched in the rerank map gets
`CombinedScore = originalWeight*old + rerankWeight*rerankScore` (weights
defaulting to 0.7/0.3 when both are zero) and the reranker's rank; an
unmatched result is left unchanged. -/
def fuseResult (opts : SearchOptions) (rrs : List RerankResult)
    (r : SearchResult) : SearchResult :=
  match rerankMapLookup rrs r.document.content with
  | none => r
  | some rr =>
    let originalWeight :=
      if opts.originalWeight = 0 ∧ opts.rerankWeight = 0 then (0.7 : ℚ)
      else opts.originalWeight
    let rerankWeight :=
      if opts.originalWeight = 0 ∧ opts.rerankWeight = 0 then (0.3 : ℚ)
      else opts.rerankWeight
    { r with
      combinedScore := originalWeight * r.combinedScore + rerankWeight * rr.score
      rank := rr.rank }

/-- Embeds the inner loop of the exchange sort used by `applyReranking` and
`RankSearchResults` (`for j := i+1; ...; if results[i].CombinedScore <
results[j].CombinedScore swap`): the running element at position `i` is `h`;
each tail element larger than the current champion exchanges places with it.
Returns the final champion (the maximum) and the rearranged tail. -/
def bubbleMax (h : SearchResult) : List SearchResult →
    SearchResult × List SearchResult
  | [] => (h, [])
  | x :: xs =>
    if h.combinedScore < x.combinedScore then
      let p := bubbleMax x xs
      (p.1, h :: p.2)
    else
      let p := bubbleMax h xs
      (p.1, x :: p.2)

/-- Embeds the double loop (`for i ...; for j := i+1 ...`) of
`applyReranking` and `RankSearchResults`: after the inner loop for index `i`,
position `i` holds the maximum of the remaining suffix, and the outer loop
continues on the rearranged tail.  The fuel argument (`= list length`) makes
the recursion structural; the tail returned by `bubbleMax` has the tail's
length, so the fuel never runs out. -/
def exchangeSortGo : Nat → List SearchResult → List SearchResult
  | 0, l => l
  | _ + 1, [] => []
  | n + 1, h :: t =>
    let p := bubbleMax h t
    p.1 :: exchangeSortGo n p.2

/-- The exchange sort of `search_engine.go` (descending by `CombinedScore`,
not stable). -/
def exchangeSort (l : List SearchResult) : List SearchResult :=
  exchangeSortGo l.length l

/-- Embeds the rank-assignment loop `for i, result := range results {
result.Rank = i + 1 }`, generalized over the starting index. -/
def assignRanks : Nat → List SearchResult → List SearchResult
  | _, [] => []
  | i, r :: rs => { r with rank := (i : Int) + 1 } :: assignRanks (i + 1) rs

/-- Embeds the default instruction choice in `applyReranking`. -/
def rerankInstructionOf (opts : SearchOptions) : String :=
  if opts.rerankInstruction = "" then
    "Given a web search query, retrieve relevant passages that answer the query"
  else opts.rerankInstruction

/-- Embeds the two optional post-filters at the end of `applyReranking`:
the minimum-score filter (only when `MinScore > 0`) and the rerank limit
truncation (only when `RerankLimit > 0` and the list is longer). -/
def postFilterRerank (opts : SearchOptions) (results : List SearchResult) :
    List SearchResult :=
  let filtered :=
    if 0 < opts.minScore then
      results.filter (fun r => decide (opts.minScore ≤ r.combinedScore))
    else results
  if 0 < opts.rerankLimit ∧ opts.rerankLimit < (filtered.length : Int) then
    filtered.take opts.rerankLimit.toNat
  else filtered

/-- Embeds `applyReranking` (`search_engine.go:447-498`): extract contents,
call the reranker (default instruction if empty), fuse matched scores,
exchange-sort descending by the new combined score, reassign ranks `1..N`,
then apply the optional min-score and limit post-filters.  A `nil` reranker
or a reranker transport failure aborts the whole call. -/
def applyReranking (reranker : Option Reranker) (ctx : GoContext)
    (textQuery : String) (results : List SearchResult)
    (opts : SearchOptions) : Except SearchError (List SearchResult) :=
  match reranker with
  | none => .error .rerankerNotInitialized
  | some rerank =>
    let documents := results.map (fun r => r.document.content)
    let instruction := rerankInstructionOf opts
    match rerank ctx textQuery documents instruction with
    | .error e => .error (.rerankingFailed e)
    | .ok rerankResults =>
      let fused := results.map (fuseResult opts rerankResults)
      let sorted := exchangeSort fused
      let ranked := assignRanks 0 sorted
      .ok (postFilterRerank opts ranked)

/-- Embeds `RankSearchResults` (`search_engine.go:501-517`): the same
exchange sort descending by `CombinedScore`, then `Rank = position + 1`. -/
def RankSearchResults (results : List SearchResult) : List SearchResult :=
  assignRanks 0 (exchangeSort results)

/-! ## Lemmas about the exchange sort and rank assignment -/

/-- The descending comparison: `b`'s combined score is at most `a`'s. -/
def scoreGE (a b : SearchResult) : Prop := b.combinedScore ≤ a.combinedScore

theorem bubbleMax_length (h : SearchResult) (t : List SearchResult) :
    (bubbleMax h t).2.length = t.length := by
  induction t generalizing h with
  | nil => simp [bubbleMax]
  | cons x xs ih =>
    by_cases hc : h.combinedScore < x.combinedScore <;>
      simp [bubbleMax, hc, ih]

theorem bubbleMax_perm (h : SearchResult) (t : List SearchResult) :
    ((bubbleMax h t).1 :: (bubbleMax h t).2).Perm (h :: t) := by
  induction t generalizing h with
  | nil => simp [bubbleMax]
  | cons x xs ih =>
    by_cases hc : h.combinedScore < x.combinedScore
    · simp only [bubbleMax, if_pos hc]
      exact (List.Perm.swap h _ _).trans ((ih x).cons h)
    · simp only [bubbleMax, if_neg hc]
      exact (List.Perm.swap x _ _).trans (((ih h).cons x).trans (List.Perm.swap h x xs))

theorem bubbleMax_self_le (h : SearchResult) (t : List SearchResult) :
    h.combinedScore ≤ (bubbleMax h t).1.combinedScore := by
  induction t generalizing h with
  | nil => simp [bubbleMax]
  | cons x xs ih =>
    by_cases hc : h.combinedScore < x.combinedScore
    · simp only [bubbleMax, if_pos hc]
      exact (le_of_lt hc).trans (ih x)
    · simp only [bubbleMax, if_neg hc]
      exact ih h

theorem bubbleMax_le (h : SearchResult) (t : List SearchResult) :
    ∀ y ∈ (bubbleMax h t).2, y.combinedScore ≤ (bubbleMax h t).1.combinedScore := by
  induction t generalizing h with
  | nil => simp [bubbleMax]
  | cons x xs ih =>
    by_cases hc : h.combinedScore < x.combinedScore
    · simp only [bubbleMax, if_pos hc, List.mem_cons]
      rintro y (rfl | hy)
      · exact (le_of_lt hc).trans (bubbleMax_self_le x xs)
      · exact ih x y hy
    · simp only [bubbleMax, if_neg hc, List.mem_cons]
      rintro y (rfl | hy)
      · exact (not_lt.mp hc).trans (bubbleMax_self_le h xs)
      · exact ih h y hy

theorem bubbleMax_of_sorted (h : SearchResult) (t : List SearchResult)
    (hs : (h :: t).Pairwise scoreGE) : bubbleMax h t = (h, t) := by
  induction t generalizing h with
  | nil => simp [bubbleMax]
  | cons x xs ih =>
    rw [List.pairwise_cons] at hs
    have hx : x.combinedScore ≤ h.combinedScore := hs.1 x (by simp)
    have hc : ¬ h.combinedScore < x.combinedScore := not_lt.mpr hx
    have htail : (h :: xs).Pairwise scoreGE := by
      rw [List.pairwise_cons]
      exact ⟨fun y hy => hs.1 y (by simp [hy]), (List.pairwise_cons.mp hs.2).2⟩
    simp [bubbleMax, hc, ih h htail]

theorem exchangeSortGo_perm :
    ∀ (n : ℕ) (l : List SearchResult), l.length ≤ n →
      (exchangeSortGo n l).Perm l := by
  intro n
  induction n with
  | zero => intro l _; exact List.Perm.refl l
  | succ n ih =>
    intro l hl
    match l with
    | [] => exact List.Perm.refl []
    | h :: t =>
      have hlen : (bubbleMax h t).2.length ≤ n := by
        rw [bubbleMax_length]
        simpa using hl
      exact ((ih _ hlen).cons _).trans (bubbleMax_perm h t)

theorem exchangeSortGo_sorted :
    ∀ (n : ℕ) (l : List SearchResult), l.length ≤ n →
      (exchangeSortGo n l).Pairwise scoreGE := by
  intro n
  induction n with
  | zero =>
    intro l hl
    have : l = [] := List.length_eq_zero.mp (Nat.le_zero.mp hl)
    simp [this, exchangeSortGo]
  | succ n ih =>
    intro l hl
    match l with
    | [] => simp [exchangeSortGo]
    | h :: t =>
      have hlen : (bubbleMax h t).2.length ≤ n := by
        rw [bubbleMax_length]
        simpa using hl
      rw [exchangeSortGo, List.pairwise_cons]
      refine ⟨fun y hy => ?_, ih _ hlen⟩
      have : y ∈ (bubbleMax h t).2 := (exchangeSortGo_perm n _ hlen).mem_iff.mp hy
      exact bubbleMax_le h t y this

theorem exchangeSortGo_of_sorted :
    ∀ (n : ℕ) (l : List SearchResult), l.length ≤ n →
      l.Pairwise scoreGE → exchangeSortGo n l = l := by
  intro n
  induction n with
  | zero => intro l _ _; rfl
  | succ n ih =>
    intro l hl hs
    match l with
    | [] => rfl
    | h :: t =>
      rw [exchangeSortGo, bubbleMax_of_sorted h t hs]
      have hlen : t.length ≤ n := by simpa using hl
      rw [ih t hlen (List.pairwise_cons.mp hs).2]

theorem exchangeSort_perm (l : List SearchResult) : (exchangeSort l).Perm l :=
  exchangeSortGo_perm l.length l le_rfl

theorem exchangeSort_sorted (l : List SearchResult) :
    (exchangeSort l).Pairwise scoreGE :=
  exchangeSortGo_sorted l.length l le_rfl

theorem exchangeSort_of_sorted (l : List SearchResult)
    (hs : l.Pairwise scoreGE) : exchangeSort l = l :=
  exchangeSortGo_of_sorted l.length l le_rfl hs

theorem exchangeSort_length (l : List SearchResult) :
    (exchangeSort l).length = l.length :=
  (exchangeSort_perm l).length_eq

theorem exchangeSortGo_fuel_irrel :
    ∀ (n : ℕ) (l : List SearchResult), l.length ≤ n →
      exchangeSortGo n l = exchangeSortGo l.length l := by
  intro n
  induction n with
  | zero =>
    intro l hl
    have : l = [] := List.length_eq_zero.mp (Nat.le_zero.mp hl)
    rw [this]
    rfl
  | succ n ih =>
    intro l hl
    match l with
    | [] => rfl
    | h :: t =>
      have hlen : (bubbleMax h t).2.length ≤ n := by
        rw [bubbleMax_length]
        simpa using hl
      rw [List.length_cons, exchangeSortGo, exchangeSortGo, ih _ hlen,
        bubbleMax_length]

/-- Evaluation rule for the empty list (used to compute concrete runs). -/
theorem exchangeSort_nil : exchangeSort [] = [] := rfl

/-- Evaluation rule peeling one outer-loop iteration (used to compute
concrete runs of the exchange sort without mentioning the fuel). -/
theorem exchangeSort_cons (h : SearchResult) (t : List SearchResult) :
    exchangeSort (h :: t)
      = (bubbleMax h t).1 :: exchangeSort (bubbleMax h t).2 := by
  rw [exchangeSort, List.length_cons, exchangeSortGo, exchangeSort,
    exchangeSortGo_fuel_irrel t.length _ (le_of_eq (bubbleMax_length h t))]

theorem assignRanks_map_rank :
    ∀ (i : ℕ) (l : List SearchResult),
      (assignRanks i l).map (fun r => r.rank)
        = (List.range' i l.length).map (fun j => (j : Int) + 1) := by
  intro i l
  induction l generalizing i with
  | nil => simp [assignRanks]
  | cons r rs ih => simp [assignRanks, List.range'_succ, ih]

theorem assignRanks_map_score :
    ∀ (i : ℕ) (l : List SearchResult),
      (assignRanks i l).map (fun r => r.combinedScore)
        = l.map (fun r => r.combinedScore) := by
  intro i l
  induction l generalizing i with
  | nil => rfl
  | cons r rs ih => simp [assignRanks, ih]

theorem assignRanks_map_document :
    ∀ (i : ℕ) (l : List SearchResult),
      (assignRanks i l).map (fun r => r.document)
        = l.map (fun r => r.document) := by
  intro i l
  induction l generalizing i with
  | nil => rfl
  | cons r rs ih => simp [assignRanks, ih]

theorem assignRanks_length (i : ℕ) (l : List SearchResult) :
    (assignRanks i l).length = l.length := by
  have := congrArg List.length (assignRanks_map_score i l)
  simpa using this

/-- `Pairwise scoreGE` only looks at combined scores, so it transfers along
any operation that preserves the list of scores. -/
theorem pairwise_scoreGE_of_map_score_eq
    {l₁ l₂ : List SearchResult}
    (h : l₁.map (fun r => r.combinedScore) = l₂.map (fun r => r.combinedScore))
    (hp : l₂.Pairwise scoreGE) : l₁.Pairwise scoreGE := by
  have h₂ : (l₂.map (fun r => r.combinedScore)).Pairwise (fun a b : ℚ => b ≤ a) := by
    rw [List.pairwise_map]
    exact hp
  rw [← h, List.pairwise_map] at h₂
  exact h₂

theorem assignRanks_pairwise (i : ℕ) (l : List SearchResult)
    (hp : l.Pairwise scoreGE) : (assignRanks i l).Pairwise scoreGE :=
  pairwise_scoreGE_of_map_score_eq (assignRanks_map_score i l) hp

instance : DecidableRel scoreGE := fun a b =>
  (inferInstance : Decidable (b.combinedScore ≤ a.combinedScore))

theorem assignRanks_map_doc_score :
    ∀ (i : ℕ) (l : List SearchResult),
      (assignRanks i l).map (fun r => (r.document, r.combinedScore))
        = l.map (fun r => (r.document, r.combinedScore)) := by
  intro i l
  induction l generalizing i with
  | nil => rfl
  | cons r rs ih => simp [assignRanks, ih]

theorem fuseResult_document (opts : SearchOptions) (rrs : List RerankResult)
    (r : SearchResult) : (fuseResult opts rrs r).document = r.document := by
  cases h : rerankMapLookup rrs r.document.content <;> simp [fuseResult, h]

theorem fuseResult_score (opts : SearchOptions) (rrs : List RerankResult)
    (r : SearchResult) (e : RerankResult)
    (he : rerankMapLookup rrs r.document.content = some e) :
    (fuseResult opts rrs r).combinedScore
      = (if opts.originalWeight = 0 ∧ opts.rerankWeight = 0 then (0.7 : ℚ)
          else opts.originalWeight) * r.combinedScore
        + (if opts.originalWeight = 0 ∧ opts.rerankWeight = 0 then (0.3 : ℚ)
          else opts.rerankWeight) * e.score := by
  simp [fuseResult, he]

/-- Sample row used by concrete witnesses and counterexamples. -/
def sampleDoc (i c : String) : Document :=
  { id := i, collectionId := "col", filePath := "p", fileName := "f",
    content := c, chunkIndex := 0, embedding := [], metadata := "" }

/-- Sample search result used by concrete witnesses and counterexamples. -/
def sampleResult (i c : String) (s : ℚ) : SearchResult :=
  { document := sampleDoc i c, vectorScore := 0, textScore := 0,
    combinedScore := s, rank := 0 }

/-- Sample options: hybrid defaults, no filters, no reranking overrides. -/
def sampleOpts : SearchOptions :=
  { searchType := "hybrid", vectorWeight := 0.7, textWeight := 0.3,
    minScore := 0, maxDistance := 1, fileFilter := "", contentFilter := "",
    useFuzzyMatch := false, fuzzyDistance := 0, enableReranking := false,
    rerankInstruction := "", originalWeight := 0, rerankWeight := 0,
    rerankLimit := 0 }

/-- C1: for every non-empty candidate list whose rerank call succeeds,
`applyReranking` sets each matched result's combined score to
`originalWeight*old + rerankWeight*rerankScore` (0.7/0.3 when both supplied
weights are zero), and returns the fused list sorted descending by the new
combined score with ranks reassigned contiguously `1..N`, with the min-score
and limit post-filters applied only after that sort-and-rank step. -/
theorem applyReranking_fusion_spec
    (rerank : Reranker) (ctx : GoContext) (textQuery : String)
    (results : List SearchResult) (opts : SearchOptions)
    (rrs : List RerankResult)
    (_hne : results ≠ [])
    (hcall : rerank ctx textQuery (results.map (fun r => r.document.content))
        (rerankInstructionOf opts) = .ok rrs) :
    applyReranking (some rerank) ctx textQuery results opts
        = .ok (postFilterRerank opts
            (assignRanks 0 (exchangeSort (results.map (fuseResult opts rrs)))))
    ∧ (∀ r ∈ results, ∀ e, rerankMapLookup rrs r.document.content = some e →
        (fuseResult opts rrs r).combinedScore
          = (if opts.originalWeight = 0 ∧ opts.rerankWeight = 0 then (0.7 : ℚ)
              else opts.originalWeight) * r.combinedScore
            + (if opts.originalWeight = 0 ∧ opts.rerankWeight = 0 then (0.3 : ℚ)
              else opts.rerankWeight) * e.score)
    ∧ (assignRanks 0 (exchangeSort (results.map (fuseResult opts rrs)))).Pairwise
        scoreGE
    ∧ (assignRanks 0 (exchangeSort (results.map (fuseResult opts rrs)))).map
          (fun r => r.rank)
        = (List.range results.length).map (fun j => (j : Int) + 1)
    ∧ (exchangeSort (results.map (fuseResult opts rrs))).Perm
        (results.map (fuseResult opts rrs)) := by
  refine ⟨?_, ?_, ?_, ?_, ?_⟩
  · simp [applyReranking, hcall]
  · intro r _ e he
    exact fuseResult_score opts rrs r e he
  · exact assignRanks_pairwise 0 _ (exchangeSort_sorted _)
  · rw [assignRanks_map_rank, exchangeSort_length, List.length_map,
      List.range_eq_range']
  · exact exchangeSort_perm _

def c1RR : List RerankResult :=
  [⟨"alpha", 1, 1⟩, ⟨"beta", 1/2, 2⟩]

def c1Reranker : Reranker := fun _ _ _ _ => .ok c1RR

def c1Results : List SearchResult :=
  [sampleResult "1" "alpha" 0.9, sampleResult "2" "beta" 0.8]

/-- Witness for C1 at a concrete two-element candidate list. -/
theorem applyReranking_fusion_spec_witness :
    applyReranking (some c1Reranker) GoContext.background "q" c1Results
        sampleOpts
      = .ok (postFilterRerank sampleOpts
          (assignRanks 0
            (exchangeSort (c1Results.map (fuseResult sampleOpts c1RR))))) :=
  (applyReranking_fusion_spec c1Reranker GoContext.background "q" c1Results
    sampleOpts c1RR (by simp [c1Results]) rfl).1

/-- C4 (amended): `RankSearchResults` returns a descending-by-score
reordering of the input (a permutation up to the reassigned ranks) with ranks
exactly `1..N`; the sort is *not* stable (see the counterexample). -/
theorem rankSearchResults_spec (results : List SearchResult) :
    (RankSearchResults results).Pairwise scoreGE
    ∧ (RankSearchResults results).map (fun r => r.rank)
        = (List.range results.length).map (fun j => (j : Int) + 1)
    ∧ ((RankSearchResults results).map
          (fun r => (r.document, r.combinedScore))).Perm
        (results.map (fun r => (r.document, r.combinedScore))) := by
  refine ⟨?_, ?_, ?_⟩
  · exact assignRanks_pairwise 0 _ (exchangeSort_sorted _)
  · rw [RankSearchResults, assignRanks_map_rank, exchangeSort_length,
      List.range_eq_range']
  · rw [RankSearchResults, assignRanks_map_doc_score]
    exact (exchangeSort_perm results).map _

def c4Input : List SearchResult :=
  [sampleResult "a" "a" 2, sampleResult "b" "b" 1,
   sampleResult "c" "c" 2, sampleResult "d" "d" 3]

/-- Counterexample to C4 as stated: in the input, the equal-score results
`"a"` and `"c"` (combined score 2) appear with `"a"` first, but
`RankSearchResults` returns `"c"` before `"a"` — the exchange sort is not
stable, so equal-score results do not keep their original relative order. -/
theorem rankSearchResults_not_stable_cx :
    c4Input.map (fun r => (r.document.id, r.combinedScore))
      = [("a", 2), ("b", 1), ("c", 2), ("d", 3)]
    ∧ (RankSearchResults c4Input).map (fun r => (r.document.id, r.combinedScore))
      = [("d", 3), ("c", 2), ("a", 2), ("b", 1)] :=
  ⟨rfl, rfl⟩

/-- C7 (amended): with `rerankWeight = 0`, a *positive* original weight, every
candidate matched by the reranker output, the candidate list already in
non-increasing combined-score order, and the min-score / limit post-filters
disabled, `applyReranking` returns the documents in exactly the pre-rerank
order. -/
theorem applyReranking_zero_weight_pass_through
    (rerank : Reranker) (ctx : GoContext) (textQuery : String)
    (results : List SearchResult) (opts : SearchOptions)
    (rrs : List RerankResult)
    (hcall : rerank ctx textQuery (results.map (fun r => r.document.content))
        (rerankInstructionOf opts) = .ok rrs)
    (hw : opts.rerankWeight = 0)
    (hwo : 0 < opts.originalWeight)
    (hmatch : ∀ r ∈ results,
        (rerankMapLookup rrs r.document.content).isSome = true)
    (hsorted : results.Pairwise scoreGE)
    (hms : opts.minScore ≤ 0)
    (hlim : opts.rerankLimit ≤ 0) :
    ∃ out, applyReranking (some rerank) ctx textQuery results opts = .ok out
      ∧ out.map (fun r => r.document) = results.map (fun r => r.document) := by
  have hne0 : ¬ (opts.originalWeight = 0 ∧ opts.rerankWeight = 0) := by
    intro hand
    exact absurd hwo (by rw [hand.1]; exact lt_irrefl 0)
  have hscore : ∀ r ∈ results, (fuseResult opts rrs r).combinedScore
      = opts.originalWeight * r.combinedScore := by
    intro r hr
    obtain ⟨e, he⟩ := Option.isSome_iff_exists.mp (hmatch r hr)
    rw [fuseResult_score opts rrs r e he, if_neg hne0, if_neg hne0, hw,
      zero_mul, add_zero]
  have hfsorted : (results.map (fuseResult opts rrs)).Pairwise scoreGE := by
    rw [List.pairwise_map]
    refine hsorted.imp_of_mem ?_
    intro a b ha hb hab
    show (fuseResult opts rrs b).combinedScore
        ≤ (fuseResult opts rrs a).combinedScore
    rw [hscore a ha, hscore b hb]
    exact mul_le_mul_of_nonneg_left hab (le_of_lt hwo)
  refine ⟨assignRanks 0 (results.map (fuseResult opts rrs)), ?_, ?_⟩
  · have hnof : postFilterRerank opts
        (assignRanks 0 (results.map (fuseResult opts rrs)))
        = assignRanks 0 (results.map (fuseResult opts rrs)) := by
      rw [postFilterRerank, if_neg (not_lt.mpr hms)]
      rw [if_neg]
      intro hand
      exact absurd (lt_of_le_of_lt hlim hand.1) (lt_irrefl _)
    simp only [applyReranking, hcall]
    rw [exchangeSort_of_sorted _ hfsorted, hnof]
  · rw [assignRanks_map_document, List.map_map]
    exact List.map_congr_left (fun r _ => fuseResult_document opts rrs r)

def c7RR : List RerankResult :=
  [⟨"alpha", 0, 1⟩, ⟨"beta", 10, 2⟩]

def c7Reranker : Reranker := fun _ _ _ _ => .ok c7RR

def c7Input : List SearchResult :=
  [sampleResult "1" "alpha" 1, sampleResult "2" "beta" (9/10)]

/-- Counterexample to C7 as stated: with `rerankWeight = 0` *and*
`originalWeight = 0` the code falls back to the 0.7/0.3 defaults, so the
reranker's scores do change the order: the pre-rerank order is
`["1", "2"]` but the returned order is `["2", "1"]`. -/
theorem applyReranking_zero_weight_not_pass_through_cx :
    sampleOpts.rerankWeight = 0
    ∧ c7Input.map (fun r => r.document.id) = ["1", "2"]
    ∧ (applyReranking (some c7Reranker) GoContext.background "q" c7Input
          sampleOpts).map (fun l => l.map (fun r => r.document.id))
      = .ok ["2", "1"] := by
  refine ⟨rfl, rfl, ?_⟩
  simp [applyReranking, c7Reranker, c7RR, c7Input, sampleOpts,
    sampleResult, sampleDoc, rerankInstructionOf, fuseResult, rerankMapLookup,
    Except.map]
  norm_num [exchangeSort_cons, exchangeSort_nil, bubbleMax, assignRanks,
    postFilterRerank]

def c7wOpts : SearchOptions := { sampleOpts with originalWeight := 1/2 }

/-- Witness for the amended C7 at a concrete sorted, fully matched list. -/
theorem applyReranking_zero_weight_pass_through_witness :
    ∃ out, applyReranking (some c7Reranker) GoContext.background "q" c7Input
        c7wOpts = .ok out
      ∧ out.map (fun r => r.document) = c7Input.map (fun r => r.document) :=
  applyReranking_zero_weight_pass_through c7Reranker GoContext.background "q"
    c7Input c7wOpts c7RR rfl rfl (by norm_num [c7wOpts, sampleOpts])
    (by decide)
    (by norm_num [c7Input, sampleResult, scoreGE])
    (by norm_num [c7wOpts, sampleOpts]) (by decide)

/-! ## The hybrid search engine (`search_engine.go`) -/

/-- The per-collection store consumed by the engine.  `docs` is the
`documents` table; `dist` is Postgres' cosine-distance operator applied to a
row's embedding and the query vector; `tsRank`/`tsMatch` are
`ts_rank(to_tsvector('english', content), q)` and
`to_tsvector('english', content) @@ q`, applied to the built tsquery text. -/
structure Store where
  docs : List Document
  dist : Document → List ℚ → ℚ
  tsRank : Document → String → ℚ
  tsMatch : Document → String → Bool

/-- The search engine state (`SearchEngineImpl`): the database handle plus an
optional reranker. -/
structure SearchEngineImpl where
  store : Store
  reranker : Option Reranker

/-- Embeds `strings.ReplaceAll(textQuery, " ", " & ")`, the tsquery text the
engine interpolates into its SQL. -/
def goReplaceAllSpaceAmp (s : String) : String :=
  String.mk ((s.toList.map
    (fun c => if c = ' ' then [' ', '&', ' '] else [c])).flatten)

/-- A SQL `ORDER BY key DESC`, modelled as a (stable) merge sort on the
selected rows. -/
def sortedDescBy {α : Type} (key : α → ℚ) (l : List α) : List α :=
  l.mergeSort (fun a b => decide (key b ≤ key a))

/-- A SQL `ORDER BY key ASC`, modelled as a (stable) merge sort on the
selected rows. -/
def sortedAscBy {α : Type} (key : α → ℚ) (l : List α) : List α :=
  l.mergeSort (fun a b => decide (key a ≤ key b))

theorem sortedDescBy_pairwise {α : Type} (key : α → ℚ) (l : List α) :
    (sortedDescBy key l).Pairwise (fun a b => key b ≤ key a) := by
  have h : (l.mergeSort (fun a b => decide (key b ≤ key a))).Pairwise
      (fun a b => decide (key b ≤ key a) = true) :=
    List.sorted_mergeSort
      (fun a b c hab hbc => by
        simp only [decide_eq_true_eq] at *
        exact le_trans hbc hab)
      (fun a b => by
        simp only [Bool.or_eq_true, decide_eq_true_eq]
        exact le_total (key b) (key a))
      l
  exact h.imp (fun hab => by simpa using hab)

theorem sortedDescBy_perm {α : Type} (key : α → ℚ) (l : List α) :
    (sortedDescBy key l).Perm l :=
  List.mergeSort_perm l _

/-- Embeds the `maxDistance` defaulting (`if maxDistance <= 0 { 1.0 }`)
shared by the vector, hybrid and semantic queries. -/
def effectiveMaxDistance (opts : SearchOptions) : ℚ :=
  if opts.maxDistance ≤ 0 then 1 else opts.maxDistance

/-- Embeds `searchVectorOnly` (`search_engine.go:101-162`): filter the
collection's rows by `distance ≤ maxDistance`, order by distance ascending,
limit, and score with `vectorScore = 1 - distance`,
`combinedScore = vectorScore * VectorWeight`.  A `nil` Go slice and an empty
vector both reach the store as an empty query vector. -/
def searchVectorOnly (store : Store) (collectionID : String)
    (embedding : Option (List ℚ)) (limit : Int) (opts : SearchOptions) :
    Except SearchError (List SearchResult) :=
  let v := embedding.getD []
  let maxDistance := effectiveMaxDistance opts
  let rows := store.docs.filter (fun d =>
    d.collectionId == collectionID && decide (store.dist d v ≤ maxDistance))
  let ordered := sortedAscBy (fun d => store.dist d v) rows
  .ok ((ordered.take limit.toNat).map (fun d =>
    { document := d, vectorScore := 1 - store.dist d v, textScore := 0,
      combinedScore := (1 - store.dist d v) * opts.vectorWeight, rank := 0 }))

/-- Embeds `searchTextOnly` (`search_engine.go:165-231`): requires a
non-empty text query; filter the collection's rows by tsquery match, order
by `ts_rank` descending, limit, and score with
`combinedScore = textScore * TextWeight`. -/
def searchTextOnly (store : Store) (collectionID : String)
    (textQuery : String) (limit : Int) (opts : SearchOptions) :
    Except SearchError (List SearchResult) :=
  if textQuery = "" then .error .textQueryRequired
  else
    let tsq := goReplaceAllSpaceAmp textQuery
    let rows := store.docs.filter (fun d =>
      d.collectionId == collectionID && store.tsMatch d tsq)
    let ordered := sortedDescBy (fun d => store.tsRank d tsq) rows
    .ok ((ordered.take limit.toNat).map (fun d =>
      { document := d, vectorScore := 0, textScore := store.tsRank d tsq,
        combinedScore := store.tsRank d tsq * opts.textWeight, rank := 0 }))

/-- Embeds the combined SQL query of `searchHybrid`'s both-inputs branch:
filter the collection's rows by `distance ≤ maxDistance` and tsquery match,
compute `vector_score = 1 - distance`, `text_score = ts_rank` and
`combined_score = vectorWeight*vector_score + textWeight*text_score`,
order by `combined_score` descending, and limit. -/
def hybridRows (store : Store) (collectionID : String) (v : List ℚ)
    (tsq : String) (maxDistance vectorWeight textWeight : ℚ)
    (limit : Int) : List SearchResult :=
  let rows := store.docs.filter (fun d =>
    d.collectionId == collectionID
      && decide (store.dist d v ≤ maxDistance) && store.tsMatch d tsq)
  let scored := rows.map (fun d =>
    { document := d, vectorScore := 1 - store.dist d v,
      textScore := store.tsRank d tsq,
      combinedScore := vectorWeight * (1 - store.dist d v)
        + textWeight * store.tsRank d tsq,
      rank := 0 })
  (sortedDescBy (fun r => r.combinedScore) scored).take limit.toNat

/-- Embeds `searchHybrid` (`search_engine.go:234-330`): normalize the weights
(defaulting to 0.7/0.3 when both are zero, as a mutation of the options),
then run the combined query when both inputs are present, fall back to the
single-input paths otherwise, and fail when neither input is given. -/
def searchHybrid (store : Store) (collectionID : String)
    (embedding : Option (List ℚ)) (textQuery : String) (limit : Int)
    (opts : SearchOptions) : Except SearchError (List SearchResult) :=
  let totalWeight := opts.vectorWeight + opts.textWeight
  let opts' := if totalWeight = 0 then
      { opts with vectorWeight := 0.7, textWeight := 0.3 } else opts
  let totalWeight' := if totalWeight = 0 then (1 : ℚ) else totalWeight
  let vectorWeight := opts'.vectorWeight / totalWeight'
  let textWeight := opts'.textWeight / totalWeight'
  if embedding.isSome ∧ textQuery ≠ "" then
    .ok (hybridRows store collectionID (embedding.getD [])
      (goReplaceAllSpaceAmp textQuery) (effectiveMaxDistance opts')
      vectorWeight textWeight limit)
  else if embedding.isSome then
    searchVectorOnly store collectionID embedding limit opts'
  else if textQuery ≠ "" then
    searchTextOnly store collectionID textQuery limit opts'
  else
    .error .embeddingOrTextQueryRequired

/-- Lowercased character list of a Go string (models `ILIKE`'s case
insensitivity). -/
def lowerChars (s : String) : List Char := s.toList.map Char.toLower

/-- `leadsWith needle hay`: `needle` starts `hay`. -/
def leadsWith : List Char → List Char → Bool
  | [], _ => true
  | _ :: _, [] => false
  | a :: as, b :: bs => a == b && leadsWith as bs

/-- `hasSub hay needle`: `needle` occurs contiguously inside `hay`. -/
def hasSub : List Char → List Char → Bool
  | [], needle => leadsWith needle []
  | c :: t, needle => leadsWith needle (c :: t) || hasSub t needle

/-- Models Postgres `s ILIKE '%pattern%'` for a wildcard-free pattern:
case-insensitive substring containment. -/
def goILike (s pattern : String) : Bool :=
  hasSub (lowerChars s) (lowerChars pattern)

/-- Embeds `searchSemantic` (`search_engine.go:333-444`): a vector search
additionally constrained by optional case-insensitive substring filters on
file name and content (each filter only added to the WHERE clause when
non-empty); the text query argument is not used. -/
def searchSemantic (store : Store) (collectionID : String)
    (embedding : Option (List ℚ)) (_textQuery : String) (limit : Int)
    (opts : SearchOptions) : Except SearchError (List SearchResult) :=
  let v := embedding.getD []
  let maxDistance := effectiveMaxDistance opts
  let rows := store.docs.filter (fun d =>
    d.collectionId == collectionID
      && (opts.fileFilter == "" || goILike d.fileName opts.fileFilter)
      && (opts.contentFilter == "" || goILike d.content opts.contentFilter)
      && decide (store.dist d v ≤ maxDistance))
  let ordered := sortedAscBy (fun d => store.dist d v) rows
  .ok ((ordered.take limit.toNat).map (fun d =>
    { document := d, vectorScore := 1 - store.dist d v, textScore := 0,
      combinedScore := (1 - store.dist d v) * opts.vectorWeight, rank := 0 }))

/-- Embeds the `switch opts.SearchType` dispatch of
`SearchDocumentsWithOptions`; the `default` case runs the hybrid search. -/
def dispatchStrategy (store : Store) (collectionID : String)
    (embedding : Option (List ℚ)) (textQuery : String) (limit : Int)
    (opts : SearchOptions) : Except SearchError (List SearchResult) :=
  if opts.searchType = SearchTypeVector then
    searchVectorOnly store collectionID embedding limit opts
  else if opts.searchType = SearchTypeText then
    searchTextOnly store collectionID textQuery limit opts
  else if opts.searchType = SearchTypeHybrid then
    searchHybrid store collectionID embedding textQuery limit opts
  else if opts.searchType = SearchTypeSemantic then
    searchSemantic store collectionID embedding textQuery limit opts
  else
    searchHybrid store collectionID embedding textQuery limit opts

/-- The option record `SearchDocumentsWithOptions` substitutes for a `nil`
options pointer (unmentioned Go fields are their zero values). -/
def defaultSearchOptions : SearchOptions :=
  { searchType := SearchTypeHybrid, vectorWeight := 0.7, textWeight := 0.3,
    minScore := 0, maxDistance := 1, fileFilter := "", contentFilter := "",
    useFuzzyMatch := false, fuzzyDistance := 0, enableReranking := false,
    rerankInstruction := "", originalWeight := 0, rerankWeight := 0,
    rerankLimit := 0 }

/-- Embeds `SearchDocumentsWithOptions` (`search_engine.go:57-98`): default
the options, dispatch on the strategy, then — when reranking is enabled and
a reranker is configured — rerank the results, passing
`context.Background()` (not any caller context: the Go method takes no
context parameter) to `applyReranking`, and wrapping a reranking failure. -/
def SearchDocumentsWithOptions (se : SearchEngineImpl) (collectionID : String)
    (embedding : Option (List ℚ)) (textQuery : String) (limit : Int)
    (optsIn : Option SearchOptions) : Except SearchError (List SearchResult) :=
  let opts := optsIn.getD defaultSearchOptions
  match dispatchStrategy se.store collectionID embedding textQuery limit opts with
  | .error e => .error e
  | .ok results =>
    if opts.enableReranking ∧ se.reranker.isSome then
      match applyReranking se.reranker GoContext.background textQuery
          results opts with
      | .error e => .error (.failedToApplyReranking e)
      | .ok reranked => .ok reranked
    else .ok results

/-! ## Claims about the search engine -/

theorem hybridRows_score (store : Store) (collectionID : String) (v : List ℚ)
    (tsq : String) (maxD vw tw : ℚ) (limit : Int) :
    ∀ r ∈ hybridRows store collectionID v tsq maxD vw tw limit,
      r.combinedScore = vw * r.vectorScore + tw * r.textScore := by
  intro r hr
  simp only [hybridRows] at hr
  have h1 := List.mem_of_mem_take hr
  have h2 := (sortedDescBy_perm _ _).mem_iff.mp h1
  obtain ⟨d, _, rfl⟩ := List.mem_map.mp h2
  rfl

theorem hybridRows_sorted (store : Store) (collectionID : String) (v : List ℚ)
    (tsq : String) (maxD vw tw : ℚ) (limit : Int) :
    (hybridRows store collectionID v tsq maxD vw tw limit).Pairwise scoreGE := by
  simp only [hybridRows]
  exact List.Pairwise.sublist (List.take_sublist _ _) (sortedDescBy_pairwise _ _)

/-- The vector weight the hybrid branch actually uses: the supplied weight
divided by the weight sum, or 0.7 when both supplied weights are zero
(matching `searchHybrid`'s normalization, where the default case divides
0.7 by a total of 1). -/
def usedVectorWeight (opts : SearchOptions) : ℚ :=
  if opts.vectorWeight + opts.textWeight = 0 then 0.7
  else opts.vectorWeight / (opts.vectorWeight + opts.textWeight)

/-- The text weight the hybrid branch actually uses (see
`usedVectorWeight`). -/
def usedTextWeight (opts : SearchOptions) : ℚ :=
  if opts.vectorWeight + opts.textWeight = 0 then 0.3
  else opts.textWeight / (opts.vectorWeight + opts.textWeight)

/-- C3: a hybrid search given both a query vector and non-empty query text
uses the supplied weights normalized by their sum (0.7/0.3 when both are
zero); the used weights always sum to 1 (in particular for any positive
pair); every returned result's combined score is
`usedVectorWeight*vectorScore + usedTextWeight*textScore`; and the results
are ordered by combined score descending. -/
theorem searchHybrid_weights_spec (store : Store) (collectionID : String)
    (v : List ℚ) (textQuery : String) (limit : Int) (opts : SearchOptions)
    (hq : textQuery ≠ "") :
    ∃ res,
      searchHybrid store collectionID (some v) textQuery limit opts = .ok res
      ∧ usedVectorWeight opts + usedTextWeight opts = 1
      ∧ (∀ r ∈ res, r.combinedScore
          = usedVectorWeight opts * r.vectorScore
            + usedTextWeight opts * r.textScore)
      ∧ res.Pairwise scoreGE := by
  have hsum : usedVectorWeight opts + usedTextWeight opts = 1 := by
    rw [usedVectorWeight, usedTextWeight]
    by_cases htot : opts.vectorWeight + opts.textWeight = 0
    · rw [if_pos htot, if_pos htot]
      norm_num
    · rw [if_neg htot, if_neg htot, div_add_div_same, div_self htot]
  by_cases htot : opts.vectorWeight + opts.textWeight = 0
  · refine ⟨hybridRows store collectionID v (goReplaceAllSpaceAmp textQuery)
      (effectiveMaxDistance
        { opts with vectorWeight := 0.7, textWeight := 0.3 })
      ((0.7 : ℚ) / 1) ((0.3 : ℚ) / 1) limit, ?_, hsum, ?_, ?_⟩
    · simp [searchHybrid, htot, hq]
    · intro r hr
      rw [hybridRows_score _ _ _ _ _ _ _ _ r hr, usedVectorWeight,
        usedTextWeight, if_pos htot, if_pos htot]
      norm_num
    · exact hybridRows_sorted _ _ _ _ _ _ _ _
  · refine ⟨hybridRows store collectionID v (goReplaceAllSpaceAmp textQuery)
      (effectiveMaxDistance opts)
      (opts.vectorWeight / (opts.vectorWeight + opts.textWeight))
      (opts.textWeight / (opts.vectorWeight + opts.textWeight)) limit,
      ?_, hsum, ?_, ?_⟩
    · simp [searchHybrid, htot, hq]
    · intro r hr
      rw [hybridRows_score _ _ _ _ _ _ _ _ r hr, usedVectorWeight,
        usedTextWeight, if_neg htot, if_neg htot]
    · exact hybridRows_sorted _ _ _ _ _ _ _ _

def c3Store : Store :=
  { docs := [sampleDoc "d1" "alpha", sampleDoc "d2" "beta"],
    dist := fun d _ => if d.id = "d1" then 1/10 else 2/5,
    tsRank := fun d _ => if d.id = "d1" then 1/2 else 3/4,
    tsMatch := fun _ _ => true }

/-- Witness for C3 at a concrete two-document store and query. -/
theorem searchHybrid_weights_spec_witness :
    ∃ res,
      searchHybrid c3Store "col" (some [1, 0]) "hello" 10 sampleOpts = .ok res
      ∧ usedVectorWeight sampleOpts + usedTextWeight sampleOpts = 1
      ∧ (∀ r ∈ res, r.combinedScore
          = usedVectorWeight sampleOpts * r.vectorScore
            + usedTextWeight sampleOpts * r.textScore)
      ∧ res.Pairwise scoreGE :=
  searchHybrid_weights_spec c3Store "col" [1, 0] "hello" 10 sampleOpts
    (by decide)

theorem searchVectorOnly_searchType_irrel (store : Store)
    (collectionID : String) (embedding : Option (List ℚ)) (limit : Int)
    (opts : SearchOptions) (s : String) :
    searchVectorOnly store collectionID embedding limit
        { opts with searchType := s }
      = searchVectorOnly store collectionID embedding limit opts := by
  simp [searchVectorOnly, effectiveMaxDistance]

theorem searchTextOnly_searchType_irrel (store : Store)
    (collectionID : String) (textQuery : String) (limit : Int)
    (opts : SearchOptions) (s : String) :
    searchTextOnly store collectionID textQuery limit
        { opts with searchType := s }
      = searchTextOnly store collectionID textQuery limit opts := by
  simp [searchTextOnly]

theorem searchHybrid_searchType_irrel (store : Store) (collectionID : String)
    (embedding : Option (List ℚ)) (textQuery : String) (limit : Int)
    (opts : SearchOptions) (s : String) :
    searchHybrid store collectionID embedding textQuery limit
        { opts with searchType := s }
      = searchHybrid store collectionID embedding textQuery limit opts := by
  by_cases htot : opts.vectorWeight + opts.textWeight = 0 <;>
    simp [searchHybrid, htot, effectiveMaxDistance, searchVectorOnly,
      searchTextOnly]

theorem fuseResult_searchType_irrel (opts : SearchOptions) (s : String)
    (rrs : List RerankResult) :
    fuseResult { opts with searchType := s } rrs = fuseResult opts rrs :=
  funext fun r => by
    cases h : rerankMapLookup rrs r.document.content <;> simp [fuseResult, h]

theorem applyReranking_searchType_irrel (reranker : Option Reranker)
    (ctx : GoContext) (textQuery : String) (results : List SearchResult)
    (opts : SearchOptions) (s : String) :
    applyReranking reranker ctx textQuery results
        { opts with searchType := s }
      = applyReranking reranker ctx textQuery results opts := by
  cases reranker with
  | none => rfl
  | some f =>
    simp [applyReranking, rerankInstructionOf, postFilterRerank,
      fuseResult_searchType_irrel]

/-- C5: for a strategy value outside {vector, text, hybrid, semantic},
`SearchDocumentsWithOptions` behaves exactly as the hybrid strategy with the
same arguments (the `switch` default falls through to `searchHybrid`; no
error is raised for the unrecognized value). -/
theorem searchDocuments_unknown_strategy_hybrid
    (se : SearchEngineImpl) (collectionID : String)
    (embedding : Option (List ℚ)) (textQuery : String) (limit : Int)
    (opts : SearchOptions)
    (h1 : opts.searchType ≠ SearchTypeVector)
    (h2 : opts.searchType ≠ SearchTypeText)
    (h3 : opts.searchType ≠ SearchTypeHybrid)
    (h4 : opts.searchType ≠ SearchTypeSemantic) :
    SearchDocumentsWithOptions se collectionID embedding textQuery limit
        (some opts)
      = SearchDocumentsWithOptions se collectionID embedding textQuery limit
          (some { opts with searchType := SearchTypeHybrid }) := by
  have hd : dispatchStrategy se.store collectionID embedding textQuery limit
      opts = searchHybrid se.store collectionID embedding textQuery limit
        opts := by
    rw [dispatchStrategy, if_neg h1, if_neg h2, if_neg h3, if_neg h4]
  have hd' : dispatchStrategy se.store collectionID embedding textQuery limit
        { opts with searchType := SearchTypeHybrid }
      = searchHybrid se.store collectionID embedding textQuery limit
          { opts with searchType := SearchTypeHybrid } := by
    rw [dispatchStrategy, if_neg (by simp [SearchTypeHybrid, SearchTypeVector]),
      if_neg (by simp [SearchTypeHybrid, SearchTypeText]), if_pos rfl]
  simp only [SearchDocumentsWithOptions, Option.getD_some, hd, hd',
    searchHybrid_searchType_irrel, applyReranking_searchType_irrel]

def c5Store : Store :=
  { docs := [], dist := fun _ _ => 0, tsRank := fun _ _ => 0,
    tsMatch := fun _ _ => true }

def c5Engine : SearchEngineImpl := { store := c5Store, reranker := none }

def c5Opts : SearchOptions := { sampleOpts with searchType := "fuzzy" }

/-- Witness for C5 with the unrecognized strategy value `"fuzzy"`. -/
theorem searchDocuments_unknown_strategy_hybrid_witness :
    SearchDocumentsWithOptions c5Engine "col" none "query" 10 (some c5Opts)
      = SearchDocumentsWithOptions c5Engine "col" none "query" 10
          (some { c5Opts with searchType := SearchTypeHybrid }) :=
  searchDocuments_unknown_strategy_hybrid c5Engine "col" none "query" 10
    c5Opts (by decide) (by decide) (by decide) (by decide)

/-- C6: a text-strategy search with empty query text fails with the
engine's missing-input error for text search (the spec's InvalidArgument)
and returns no results, and a hybrid-strategy search with neither a query
vector nor query text fails with the missing-input error for hybrid search
and returns no results. -/
theorem searchDocuments_missing_input_invalid_argument
    (se : SearchEngineImpl) (collectionID : String)
    (embedding : Option (List ℚ)) (limit : Int) (opts : SearchOptions) :
    SearchDocumentsWithOptions se collectionID embedding "" limit
        (some { opts with searchType := SearchTypeText })
      = .error .textQueryRequired
    ∧ SearchDocumentsWithOptions se collectionID none "" limit
        (some { opts with searchType := SearchTypeHybrid })
      = .error .embeddingOrTextQueryRequired := by
  constructor
  · simp [SearchDocumentsWithOptions, dispatchStrategy, searchTextOnly,
      SearchTypeText, SearchTypeVector]
  · simp [SearchDocumentsWithOptions, dispatchStrategy, searchHybrid,
      SearchTypeHybrid, SearchTypeVector, SearchTypeText]

/-- C9 (the code as it is): whatever the caller's deadline or cancellation
state, the reranking call inside `SearchDocumentsWithOptions` receives
`context.Background()` — the Go method has no context parameter at all, so
no caller token can reach the storage query or the reranker. -/
theorem searchDocuments_rerank_background_context
    (se : SearchEngineImpl) (collectionID : String)
    (embedding : Option (List ℚ)) (textQuery : String) (limit : Int)
    (opts : SearchOptions) (results : List SearchResult)
    (hdisp : dispatchStrategy se.store collectionID embedding textQuery limit
        opts = .ok results)
    (hen : opts.enableReranking = true)
    (hrk : se.reranker.isSome = true) :
    SearchDocumentsWithOptions se collectionID embedding textQuery limit
        (some opts)
      = match applyReranking se.reranker GoContext.background textQuery
            results opts with
        | .error e => .error (.failedToApplyReranking e)
        | .ok reranked => .ok reranked := by
  simp only [SearchDocumentsWithOptions, Option.getD_some, hdisp]
  rw [if_pos ⟨hen, hrk⟩]

/-- A reranker that observes its context: it succeeds only when handed the
background context and reports a cancellation error otherwise. -/
def c9Reranker : Reranker := fun ctx _ _ _ =>
  match ctx with
  | .background => .ok []
  | .withCancel _ => .error "context cancelled"

def c9Engine : SearchEngineImpl :=
  { store := c5Store, reranker := some c9Reranker }

def c9Opts : SearchOptions :=
  { sampleOpts with searchType := SearchTypeText, enableReranking := true }

/-- Witness for C9: a concrete reranking-enabled engine; the rerank call is
made with `GoContext.background`. -/
theorem searchDocuments_rerank_background_context_witness :
    SearchDocumentsWithOptions c9Engine "col" none "hello" 10 (some c9Opts)
      = match applyReranking c9Engine.reranker GoContext.background "hello"
            [] c9Opts with
        | .error e => .error (.failedToApplyReranking e)
        | .ok reranked => .ok reranked :=
  searchDocuments_rerank_background_context c9Engine "col" none "hello" 10
    c9Opts []
    (by simp [dispatchStrategy, c9Engine, c9Opts, sampleOpts, c5Store,
      searchTextOnly, SearchTypeText, SearchTypeVector, sortedDescBy])
    rfl rfl

/-! ## The chunker (`pkg/embedding/embedding.go`)

Go strings are embedded as `List Char` (ASCII: one `Char` per byte, so the
source's byte indexing and rune iteration coincide). -/

/-- Embeds Go's `unicode.IsSpace` on the Latin-1 range: space, `\t`, `\n`,
`\v`, `\f`, `\r`, U+0085 (NEL) and U+00A0 (NBSP). -/
def goIsSpace (c : Char) : Bool :=
  c = ' ' || c = '\t' || c = '\n' || c = '\x0b' || c = '\x0c' || c = '\r'
    || c = '\x85' || c = '\xa0'

/-- Embeds `strings.TrimSpace`: drop leading and trailing space characters. -/
def trimGo (l : List Char) : List Char :=
  ((l.dropWhile goIsSpace).reverse.dropWhile goIsSpace).reverse

/-- The sentence-ending characters tested by `splitIntoSentences` and
`getOverlapText` (`.`, `!`, `?`). -/
def isSentenceEnd (c : Char) : Bool :=
  c = '.' || c = '!' || c = '?'

/-- The lookahead of `splitIntoSentences`: `nextChar := ' '` overwritten with
`text[i]` when `len(text) > i` (the source indexes with `current.Len()`). -/
def nextCharAt (text : List Char) (i : ℕ) : Char :=
  if i < text.length then text.getD i ' ' else ' '

/-- Embeds the loop of `splitIntoSentences`.  `text` is the whole input (the
source reads its lookahead byte at index `current.Len()` — the length of the
builder, which stops tracking the absolute position after the first cut;
the embedding reproduces that faithfully); `rem` is the remaining input;
`current ++ [c]` is the builder after writing the rune; `acc` the sentences
emitted so far.  On a sentence-ending character whose lookahead is a space
(or when the builder length equals the text length), the trimmed builder is
emitted if non-empty and the builder is reset. -/
def splitGo (text : List Char) :
    List Char → List Char → List (List Char) → List (List Char)
  | [], current, acc =>
    if trimGo current ≠ [] then acc ++ [trimGo current] else acc
  | c :: rest, current, acc =>
    if isSentenceEnd c then
      if goIsSpace (nextCharAt text (current ++ [c]).length)
          ∨ (current ++ [c]).length = text.length then
        if trimGo (current ++ [c]) ≠ [] then
          splitGo text rest [] (acc ++ [trimGo (current ++ [c])])
        else splitGo text rest [] acc
      else splitGo text rest (current ++ [c]) acc
    else splitGo text rest (current ++ [c]) acc

/-- Embeds `splitIntoSentences` (`embedding.go:113-146`). -/
def splitIntoSentences (text : List Char) : List (List Char) :=
  splitGo text text [] []

/-- Embeds the boundary scan of `getOverlapText`: the first sentence-ending
character followed by a space yields the (untrimmed) tail after it. -/
def findSentenceBoundary : List Char → Option (List Char)
  | [] => none
  | c :: rest =>
    if isSentenceEnd c && (match rest with
        | r :: _ => goIsSpace r
        | [] => false) then some rest
    else findSentenceBoundary rest

/-- Embeds `getOverlapText` (`embedding.go:149-169`): empty for a
non-positive overlap or text not longer than the overlap; otherwise the last
`overlapSize` characters, trimmed to just after the first sentence boundary
inside that window when one exists. -/
def getOverlapText (text : List Char) (overlapSize : Int) : List Char :=
  if overlapSize ≤ 0 ∨ (text.length : Int) ≤ overlapSize then []
  else
    let overlapText := text.drop (text.length - overlapSize.toNat)
    match findSentenceBoundary overlapText with
    | some rest => trimGo rest
    | none => trimGo overlapText

/-- Chunk metadata (`map[string]string`); the pure model keeps it as an
association list and `copyMetadata`'s defensive copy is the identity (a
`nil` map and an empty map are both the empty list). -/
abbrev Metadata : Type := List (String × String)

/-- Embeds `copyMetadata` (`embedding.go:172-182`). -/
def copyMetadata (m : Metadata) : Metadata := m

/-- The chunking-relevant fields of `config.EmbeddingConfig` (Go `int`s). -/
structure EmbeddingConfig where
  chunkSize : Int
  chunkOverlap : Int
  deriving Repr, DecidableEq

/-- Embeds `embedding.Chunk` (`embedding.go:20-26`): content, 0-based index,
metadata, and the embedding once generated (`omitempty` ≈ `none`). -/
structure Chunk where
  content : List Char
  index : Nat
  metadata : Metadata
  embedding : Option (List ℚ)
  deriving Repr, DecidableEq

/-- Embeds the sentence-accumulation loop of `ChunkText`
(`embedding.go:47-85`): close the current chunk when appending the next
sentence would exceed the chunk size (only once the chunk is non-empty),
seed the next chunk with the overlap text, and append the final chunk when
non-empty.  `currentLength` mirrors the Go variable (always the builder's
length). -/
def chunkLoop (cfg : EmbeddingConfig) (meta : Metadata) :
    List (List Char) → List Char → Int → Nat → List Chunk → List Chunk
  | [], current, currentLength, chunkIndex, chunks =>
    if 0 < currentLength then
      chunks ++ [{ content := trimGo current, index := chunkIndex,
                   metadata := copyMetadata meta, embedding := none }]
    else chunks
  | s :: rest, current, currentLength, chunkIndex, chunks =>
    if cfg.chunkSize < currentLength + (s.length : Int)
        ∧ 0 < currentLength then
      let closed := chunks ++ [{ content := trimGo current,
                                 index := chunkIndex,
                                 metadata := copyMetadata meta,
                                 embedding := none }]
      let overlapText := getOverlapText current cfg.chunkOverlap
      chunkLoop cfg meta rest (overlapText ++ s)
        ((overlapText.length : Int) + (s.length : Int)) (chunkIndex + 1)
        closed
    else
      chunkLoop cfg meta rest (current ++ s)
        (currentLength + (s.length : Int)) chunkIndex chunks

/-- Embeds `ChunkText` (`embedding.go:35-85`): trim the input, fail on empty
text, split into sentences and accumulate chunks. -/
def ChunkText (cfg : EmbeddingConfig) (text : List Char) (metadata : Metadata) :
    Except String (List Chunk) :=
  let trimmed := trimGo text
  if trimmed = [] then .error "empty text provided"
  else .ok (chunkLoop cfg metadata (splitIntoSentences trimmed) [] 0 0 [])

/-- Embeds `GenerateEmbeddings` (`embedding.go:88-97`): embed each chunk's
content in order; at the first failure stop and report the failing chunk's
position with the wrapped cause (the already-embedded prefix keeps its
embeddings, the rest is untouched); otherwise succeed with every embedding
set. -/
def GenerateEmbeddings (embedder : List Char → Except String (List ℚ)) :
    List Chunk → List Chunk × Option (ℕ × String)
  | [] => ([], none)
  | c :: cs =>
    match embedder c.content with
    | .error e => (c :: cs, some (0, e))
    | .ok v =>
      let rest := GenerateEmbeddings embedder cs
      ({ c with embedding := some v } :: rest.1,
        match rest.2 with
        | some ie => some (ie.1 + 1, ie.2)
        | none => none)

/-! ## Claims about the chunker -/

theorem chunkLoop_indices (cfg : EmbeddingConfig) (meta : Metadata) :
    ∀ (ss : List (List Char)) (current : List Char) (clen : Int)
      (chunks : List Chunk),
      chunks.map (fun c => c.index) = List.range chunks.length →
      (chunkLoop cfg meta ss current clen chunks.length chunks).map
          (fun c => c.index)
        = List.range
            (chunkLoop cfg meta ss current clen chunks.length chunks).length := by
  intro ss
  induction ss with
  | nil =>
    intro current clen chunks h
    rw [chunkLoop]
    by_cases hc : (0 : Int) < clen
    · rw [if_pos hc]
      simp [h, List.range_succ]
    · rw [if_neg hc]
      exact h
  | cons s rest ih =>
    intro current clen chunks h
    rw [chunkLoop]
    by_cases hc : cfg.chunkSize < clen + (s.length : Int) ∧ 0 < clen
    · rw [if_pos hc]
      have hclosed : (chunks
            ++ [(⟨trimGo current, chunks.length, copyMetadata meta, none⟩ :
                  Chunk)]).map (fun c => c.index)
          = List.range (chunks
              ++ [(⟨trimGo current, chunks.length, copyMetadata meta, none⟩ :
                    Chunk)]).length := by
        simp [h, List.range_succ]
      have hrec := ih (getOverlapText current cfg.chunkOverlap ++ s)
        (((getOverlapText current cfg.chunkOverlap).length : Int)
          + (s.length : Int))
        (chunks
          ++ [(⟨trimGo current, chunks.length, copyMetadata meta, none⟩ :
                Chunk)]) hclosed
      simpa using hrec
    · rw [if_neg hc]
      exact ih (current ++ s) (clen + (s.length : Int)) chunks h

/-- C8: whenever `ChunkText` succeeds, the chunk indices are exactly the
contiguous sequence `0..N-1` in order, with no gaps or repeats. -/
theorem chunkText_indices (cfg : EmbeddingConfig) (text : List Char)
    (meta : Metadata) (cs : List Chunk)
    (h : ChunkText cfg text meta = .ok cs) :
    cs.map (fun c => c.index) = List.range cs.length := by
  simp only [ChunkText] at h
  by_cases ht : trimGo text = []
  · simp [ht] at h
  · rw [if_neg ht] at h
    injection h with h
    subst h
    exact chunkLoop_indices cfg meta (splitIntoSentences (trimGo text)) [] 0
      [] rfl

/-- Witness for C8: a two-chunk run (chunk size 10 forces a split). -/
theorem chunkText_indices_witness :
    ([{ content := "Hello there.".toList, index := 0, metadata := [],
        embedding := none },
      { content := "Bye.".toList, index := 1, metadata := [],
        embedding := none }] : List Chunk).map (fun c => c.index)
      = List.range 2 :=
  chunkText_indices ⟨10, 0⟩ "Hello there. Bye.".toList [] _ rfl

/-- Characters of `l` that are not spaces (the quantity `TrimSpace`
preserves). -/
def nonSpaceCount (l : List Char) : ℕ :=
  (l.filter (fun c => !goIsSpace c)).length

/-- Total length of a list of sentences. -/
def lenSum (ls : List (List Char)) : ℕ := (ls.map List.length).sum

/-- Total non-space count of a list of sentences. -/
def nonSpaceSum (ls : List (List Char)) : ℕ := (ls.map nonSpaceCount).sum

theorem filter_nonspace_dropWhile (m : List Char) :
    (m.dropWhile goIsSpace).filter (fun c => !goIsSpace c)
      = m.filter (fun c => !goIsSpace c) := by
  induction m with
  | nil => rfl
  | cons c t ih =>
    by_cases hc : goIsSpace c <;>
      simp [List.dropWhile_cons, hc, List.filter_cons, ih]

theorem nonSpaceCount_reverse (l : List Char) :
    nonSpaceCount l.reverse = nonSpaceCount l := by
  simp [nonSpaceCount, List.filter_reverse]

theorem nonSpaceCount_dropWhile (m : List Char) :
    nonSpaceCount (m.dropWhile goIsSpace) = nonSpaceCount m := by
  simp [nonSpaceCount, filter_nonspace_dropWhile]

theorem nonSpaceCount_trimGo (l : List Char) :
    nonSpaceCount (trimGo l) = nonSpaceCount l := by
  rw [trimGo, nonSpaceCount_reverse, nonSpaceCount_dropWhile,
    nonSpaceCount_reverse, nonSpaceCount_dropWhile]

theorem trimGo_eq_nil_iff (l : List Char) :
    trimGo l = [] ↔ nonSpaceCount l = 0 := by
  constructor
  · intro h
    have h2 := nonSpaceCount_trimGo l
    rw [h] at h2
    simpa [nonSpaceCount] using h2.symm
  · intro h
    have hall : ∀ c ∈ l, goIsSpace c := by
      intro c hc
      by_contra hcs
      have hmem : c ∈ l.filter (fun c => !goIsSpace c) :=
        List.mem_filter.mpr ⟨hc, by simp [hcs]⟩
      have : l.filter (fun c => !goIsSpace c) = [] :=
        List.length_eq_zero.mp h
      rw [this] at hmem
      exact absurd hmem (List.not_mem_nil c)
    have h1 : l.dropWhile goIsSpace = [] :=
      List.dropWhile_eq_nil_iff.mpr hall
    simp [trimGo, h1]

theorem trimGo_length_le (l : List Char) : (trimGo l).length ≤ l.length := by
  rw [trimGo]
  simp only [List.length_reverse]
  calc ((l.dropWhile goIsSpace).reverse.dropWhile goIsSpace).length
      ≤ (l.dropWhile goIsSpace).reverse.length :=
        (List.dropWhile_sublist _).length_le
    _ = (l.dropWhile goIsSpace).length := List.length_reverse _
    _ ≤ l.length := (List.dropWhile_sublist _).length_le

theorem nonSpaceCount_le_length (l : List Char) :
    nonSpaceCount l ≤ l.length :=
  List.length_filter_le _ _

theorem nonSpaceCount_append (a b : List Char) :
    nonSpaceCount (a ++ b) = nonSpaceCount a + nonSpaceCount b := by
  simp [nonSpaceCount, List.filter_append]

/-- The split loop neither creates nor destroys non-space characters:
pushed sentences are trims of builder segments (same count) and a segment is
dropped only when it is all spaces (count zero). -/
theorem splitGo_nonSpaceSum (text : List Char) :
    ∀ (rem current : List Char) (acc : List (List Char)),
      nonSpaceSum (splitGo text rem current acc)
        = nonSpaceSum acc + nonSpaceCount current + nonSpaceCount rem := by
  have hnil : nonSpaceCount [] = 0 := rfl
  intro rem
  induction rem with
  | nil =>
    intro current acc
    rw [splitGo]
    by_cases hc : trimGo current ≠ []
    · rw [if_pos hc]
      have e : nonSpaceSum (acc ++ [trimGo current])
          = nonSpaceSum acc + nonSpaceCount current := by
        simp [nonSpaceSum, nonSpaceCount_trimGo]
      rw [e, hnil]
      omega
    · rw [if_neg hc]
      have h0 : nonSpaceCount current = 0 :=
        (trimGo_eq_nil_iff current).mp (not_not.mp hc)
      rw [h0, hnil]
      omega
  | cons c rest ih =>
    intro current acc
    rw [splitGo]
    have hsplit : nonSpaceCount (c :: rest)
        = nonSpaceCount [c] + nonSpaceCount rest :=
      nonSpaceCount_append [c] rest
    have hcur : nonSpaceCount (current ++ [c])
        = nonSpaceCount current + nonSpaceCount [c] :=
      nonSpaceCount_append current [c]
    by_cases h1 : isSentenceEnd c = true
    · rw [if_pos h1]
      by_cases h2 : goIsSpace (nextCharAt text (current ++ [c]).length)
          ∨ (current ++ [c]).length = text.length
      · rw [if_pos h2]
        by_cases h3 : trimGo (current ++ [c]) ≠ []
        · rw [if_pos h3, ih]
          have e1 : nonSpaceSum (acc ++ [trimGo (current ++ [c])])
              = nonSpaceSum acc
                + (nonSpaceCount current + nonSpaceCount [c]) := by
            simp [nonSpaceSum, nonSpaceCount_trimGo, hcur]
          rw [e1, hnil, hsplit]
          omega
        · rw [if_neg h3, ih]
          have h0 : nonSpaceCount current + nonSpaceCount [c] = 0 := by
            rw [← nonSpaceCount_append]
            exact (trimGo_eq_nil_iff _).mp (not_not.mp h3)
          rw [hnil, hsplit]
          omega
      · rw [if_neg h2, ih, hcur, hsplit]
        omega
    · rw [if_neg h1, ih, hcur, hsplit]
      omega

/-- Sentences are trims of builder segments, so their total length is at
most the processed length. -/
theorem splitGo_lenSum_le (text : List Char) :
    ∀ (rem current : List Char) (acc : List (List Char)),
      lenSum (splitGo text rem current acc)
        ≤ lenSum acc + current.length + rem.length := by
  intro rem
  induction rem with
  | nil =>
    intro current acc
    rw [splitGo]
    by_cases hc : trimGo current ≠ []
    · rw [if_pos hc]
      have e : lenSum (acc ++ [trimGo current])
          = lenSum acc + (trimGo current).length := by
        simp [lenSum]
      rw [e]
      have h4 := trimGo_length_le current
      simp only [List.length_nil]
      omega
    · rw [if_neg hc]
      simp only [List.length_nil]
      omega
  | cons c rest ih =>
    intro current acc
    have hrestlen : (c :: rest).length = rest.length + 1 := by
      simp
    have hcurlen : (current ++ [c]).length = current.length + 1 := by
      simp
    rw [splitGo]
    by_cases h1 : isSentenceEnd c = true
    · rw [if_pos h1]
      by_cases h2 : goIsSpace (nextCharAt text (current ++ [c]).length)
          ∨ (current ++ [c]).length = text.length
      · rw [if_pos h2]
        by_cases h3 : trimGo (current ++ [c]) ≠ []
        · rw [if_pos h3]
          have e1 : lenSum (acc ++ [trimGo (current ++ [c])])
              = lenSum acc + (trimGo (current ++ [c])).length := by
            simp [lenSum]
          have h4 := trimGo_length_le (current ++ [c])
          rw [hcurlen] at h4
          have h5 := ih [] (acc ++ [trimGo (current ++ [c])])
          rw [e1, List.length_nil] at h5
          rw [hrestlen]
          omega
        · rw [if_neg h3]
          have h5 := ih [] acc
          rw [List.length_nil] at h5
          rw [hrestlen]
          omega
      · rw [if_neg h2]
        have h5 := ih (current ++ [c]) acc
        rw [hcurlen] at h5
        rw [hrestlen]
        omega
    · rw [if_neg h1]
      have h5 := ih (current ++ [c]) acc
      rw [hcurlen] at h5
      rw [hrestlen]
      omega

theorem splitIntoSentences_nonSpaceSum (t : List Char) :
    nonSpaceSum (splitIntoSentences t) = nonSpaceCount t := by
  rw [splitIntoSentences, splitGo_nonSpaceSum]
  simp [nonSpaceSum, nonSpaceCount]

theorem splitIntoSentences_lenSum_le (t : List Char) :
    lenSum (splitIntoSentences t) ≤ t.length := by
  have h := splitGo_lenSum_le t t [] []
  simpa [lenSum] using h

theorem nonSpaceSum_le_lenSum (ls : List (List Char)) :
    nonSpaceSum ls ≤ lenSum ls := by
  rw [nonSpaceSum, lenSum]
  induction ls with
  | nil => simp
  | cons s rest ih =>
    simp only [List.map_cons, List.sum_cons]
    exact Nat.add_le_add (nonSpaceCount_le_length s) ih

/-- When every sentence fits in the remaining budget, the accumulation loop
never closes a chunk: it just concatenates all sentences into one final
chunk (emitted when its length is positive). -/
theorem chunkLoop_fits (cfg : EmbeddingConfig) (meta : Metadata) :
    ∀ (ss : List (List Char)) (current : List Char) (clen : Int)
      (chunks : List Chunk) (idx : ℕ),
      clen = (current.length : Int) →
      (current.length : Int) + (lenSum ss : Int) ≤ cfg.chunkSize →
      chunkLoop cfg meta ss current clen idx chunks
        = if (0 : Int) < (current.length : Int) + (lenSum ss : Int) then
            chunks ++ [⟨trimGo (current ++ ss.flatten), idx,
              copyMetadata meta, none⟩]
          else chunks := by
  intro ss
  induction ss with
  | nil =>
    intro current clen chunks idx hclen _hle
    rw [chunkLoop, hclen]
    simp [lenSum]
  | cons s rest ih =>
    intro current clen chunks idx hclen hle
    have hsum : lenSum (s :: rest) = s.length + lenSum rest := by
      simp [lenSum]
    rw [hsum] at hle
    push_cast at hle
    rw [chunkLoop]
    have hnc : ¬ (cfg.chunkSize < clen + (s.length : Int) ∧ 0 < clen) := by
      rintro ⟨hlt, -⟩
      rw [hclen] at hlt
      omega
    rw [if_neg hnc]
    have hlen2 : clen + (s.length : Int) = ((current ++ s).length : Int) := by
      rw [hclen]
      simp [List.length_append]
    have hbound : ((current ++ s).length : Int) + (lenSum rest : Int)
        ≤ cfg.chunkSize := by
      rw [← hlen2, hclen]
      omega
    have hrec := ih (current ++ s) (clen + (s.length : Int)) chunks idx hlen2
      hbound
    rw [hrec]
    have hcond : ((0 : Int) < ((current ++ s).length : Int)
          + (lenSum rest : Int))
        ↔ ((0 : Int) < (current.length : Int)
          + (lenSum (s :: rest) : Int)) := by
      rw [hsum]
      push_cast
      simp only [List.length_append]
      push_cast
      omega
    have hbranch : chunks ++ [(⟨trimGo ((current ++ s) ++ rest.flatten), idx,
          copyMetadata meta, none⟩ : Chunk)]
        = chunks ++ [(⟨trimGo (current ++ (s :: rest).flatten), idx,
            copyMetadata meta, none⟩ : Chunk)] := by
      rw [List.append_assoc, List.flatten_cons]
    rw [if_congr hcond hbranch rfl]

/-- C2 (amended): for input whose trimmed text is non-empty and fits in the
chunk size, `ChunkText` returns exactly one chunk, whose content is the
trimmed concatenation of the sentence units extracted from the text — the
source concatenates individually trimmed sentences without re-inserting the
whitespace between them, so the content equals the trimmed input only when
the split yields it back verbatim (see the counterexample). -/
theorem chunkText_single_chunk (cfg : EmbeddingConfig) (text : List Char)
    (meta : Metadata)
    (hne : trimGo text ≠ [])
    (hfit : ((trimGo text).length : Int) ≤ cfg.chunkSize) :
    ChunkText cfg text meta
      = .ok [⟨trimGo ((splitIntoSentences (trimGo text)).flatten), 0,
          copyMetadata meta, none⟩] := by
  have hlen : (lenSum (splitIntoSentences (trimGo text)) : Int)
      ≤ cfg.chunkSize :=
    le_trans (by exact_mod_cast splitIntoSentences_lenSum_le (trimGo text))
      hfit
  have hpos : 0 < nonSpaceSum (splitIntoSentences (trimGo text)) := by
    rw [splitIntoSentences_nonSpaceSum, nonSpaceCount_trimGo]
    rcases Nat.eq_zero_or_pos (nonSpaceCount text) with h0 | h0
    · exact absurd ((trimGo_eq_nil_iff text).mpr h0) hne
    · exact h0
  have hposlen : (0 : Int)
      < (lenSum (splitIntoSentences (trimGo text)) : Int) := by
    have := lt_of_lt_of_le hpos (nonSpaceSum_le_lenSum _)
    exact_mod_cast this
  simp only [ChunkText]
  rw [if_neg hne]
  congr 1
  have hloop := chunkLoop_fits cfg meta (splitIntoSentences (trimGo text))
    [] 0 [] 0 (by simp) (by simpa using hlen)
  rw [hloop, if_pos (by simpa using hposlen)]
  simp

/-- Counterexample to C2 as stated: `"A. B."` (trimmed length 5, well under
a chunk size of 100) produces one chunk whose content is `"A.B."` — the
space between the two sentences is lost — so the chunk does not equal the
whitespace-trimmed input. -/
theorem chunkText_not_trimmed_input_cx :
    ChunkText ⟨100, 10⟩ "A. B.".toList []
      = .ok [⟨"A.B.".toList, 0, [], none⟩]
    ∧ trimGo "A. B.".toList = "A. B.".toList
    ∧ "A.B.".toList ≠ "A. B.".toList :=
  ⟨rfl, rfl, by decide⟩

/-- Witness for the amended C2 at a concrete short input. -/
theorem chunkText_single_chunk_witness :
    ChunkText ⟨100, 10⟩ "Hi there.".toList []
      = .ok [⟨trimGo ((splitIntoSentences (trimGo "Hi there.".toList)).flatten),
          0, copyMetadata [], none⟩] :=
  chunkText_single_chunk ⟨100, 10⟩ "Hi there.".toList [] (by decide)
    (by decide)

/-- C10: `GenerateEmbeddings` processes chunks strictly in order and stops
at the first failure.  The returned chunk list always has the input's
length; on an error `(i, cause)` the `i`-th chunk's embedding call failed
with `cause`, every chunk before position `i` carries the embedding its own
content produced, and the chunks from position `i` on are returned
unchanged; on success every chunk carries its embedding. -/
theorem generateEmbeddings_spec
    (embedder : List Char → Except String (List ℚ)) (chunks : List Chunk) :
    ((GenerateEmbeddings embedder chunks).1.length = chunks.length)
    ∧ (∀ i cause,
        (GenerateEmbeddings embedder chunks).2 = some (i, cause) →
          (∃ c, chunks.get? i = some c ∧ embedder c.content = .error cause)
          ∧ (GenerateEmbeddings embedder chunks).1.drop i = chunks.drop i
          ∧ (∀ j, j < i → ∃ c v, chunks.get? j = some c
              ∧ embedder c.content = .ok v
              ∧ (GenerateEmbeddings embedder chunks).1.get? j
                  = some { c with embedding := some v }))
    ∧ ((GenerateEmbeddings embedder chunks).2 = none →
        ∀ j c, chunks.get? j = some c →
          ∃ v, embedder c.content = .ok v
            ∧ (GenerateEmbeddings embedder chunks).1.get? j
                = some { c with embedding := some v }) := by
  induction chunks with
  | nil =>
    refine ⟨rfl, ?_, ?_⟩
    · intro i cause h
      exact absurd h (by simp [GenerateEmbeddings])
    · intro _ j c h
      exact absurd h (by simp)
  | cons c cs ih =>
    cases hemb : embedder c.content with
    | error e =>
      refine ⟨?_, ?_, ?_⟩
      · simp [GenerateEmbeddings, hemb]
      · intro i cause h
        simp only [GenerateEmbeddings, hemb] at h ⊢
        injection h with h
        have hi : i = 0 := by
          have := congrArg Prod.fst h
          exact this.symm
        have hcause : cause = e := by
          have := congrArg Prod.snd h
          exact this.symm
        subst hi
        subst hcause
        refine ⟨⟨c, rfl, hemb⟩, by trivial, ?_⟩
        intro j hj
        exact absurd hj (Nat.not_lt_zero j)
      · intro h
        exact absurd h (by simp [GenerateEmbeddings, hemb])
    | ok v =>
      obtain ⟨ihlen, iherr, ihok⟩ := ih
      refine ⟨?_, ?_, ?_⟩
      · simp [GenerateEmbeddings, hemb, ihlen]
      · intro i cause h
        simp only [GenerateEmbeddings, hemb] at h
        cases hrest : (GenerateEmbeddings embedder cs).2 with
        | none => rw [hrest] at h; exact absurd h (by simp)
        | some ie =>
          rw [hrest] at h
          simp only [Option.some.injEq] at h
          have hi : i = ie.1 + 1 := by
            have := congrArg Prod.fst h
            exact this.symm
          have hcause : cause = ie.2 := by
            have := congrArg Prod.snd h
            exact this.symm
          subst hi
          subst hcause
          obtain ⟨⟨fc, hfc, hfcerr⟩, hdrop, hpre⟩ :=
            iherr ie.1 ie.2 (by rw [hrest])
          refine ⟨⟨fc, by simpa using hfc, hfcerr⟩, ?_, ?_⟩
          · simp only [GenerateEmbeddings, hemb]
            simpa using hdrop
          · intro j hj
            match j with
            | 0 =>
              exact ⟨c, v, rfl, hemb, by simp [GenerateEmbeddings, hemb]⟩
            | j' + 1 =>
              obtain ⟨cj, vj, hcj, hvj, hres⟩ :=
                hpre j' (Nat.lt_of_succ_lt_succ hj)
              exact ⟨cj, vj, by simpa using hcj, hvj,
                by simp only [GenerateEmbeddings, hemb]; simpa using hres⟩
      · intro h j cj hcj
        simp only [GenerateEmbeddings, hemb] at h
        cases hrest : (GenerateEmbeddings embedder cs).2 with
        | some ie => rw [hrest] at h; exact absurd h (by simp)
        | none =>
          match j with
          | 0 =>
            have : cj = c := by simpa using hcj.symm
            subst this
            exact ⟨v, hemb, by simp [GenerateEmbeddings, hemb]⟩
          | j' + 1 =>
            obtain ⟨vj, hvj, hres⟩ := ihok hrest j' cj (by simpa using hcj)
            exact ⟨vj, hvj,
              by simp only [GenerateEmbeddings, hemb]; simpa using hres⟩

def c10Chunks : List Chunk :=
  [{ content := "good".toList, index := 0, metadata := [], embedding := none },
   { content := "bad".toList, index := 1, metadata := [], embedding := none }]

def c10Embedder : List Char → Except String (List ℚ) :=
  fun content => if content = "bad".toList then .error "boom" else .ok [1]

/-- Witness for C10: the embedder fails on the second chunk; the run stops
at position 1, with the first chunk embedded and the second untouched. -/
theorem generateEmbeddings_spec_witness :
    (∃ c, c10Chunks.get? 1 = some c ∧ c10Embedder c.content = .error "boom")
    ∧ (GenerateEmbeddings c10Embedder c10Chunks).1.drop 1 = c10Chunks.drop 1
    ∧ (∀ j, j < 1 → ∃ c v, c10Chunks.get? j = some c
        ∧ c10Embedder c.content = .ok v
        ∧ (GenerateEmbeddings c10Embedder c10Chunks).1.get? j
            = some { c with embedding := some v }) :=
  (generateEmbeddings_spec c10Embedder c10Chunks).2.1 1 "boom" rfl
